import Mathlib

/-!
Shallow embedding of the core of `n8n-nodes-sharp`
(`nodes/ImageStitcher/ImageStitcher.node.ts`): background-color parsing,
source-key parsing and validation, width normalization, vertical layout
(canvas size and per-image placements), the optional upload back to the
object store, and the per-item batch loop of `execute`.

Strings are modelled as `List Char` (JavaScript strings are sequences of
code units; all inputs relevant here are plain text).  JavaScript numbers
that hold pixel counts are modelled as `Nat`, and quantities that may go
negative (spacing, offsets) as `Int`.  A JavaScript `NaN` arising from
`parseInt` is modelled as `none`.
-/

namespace ImageStitcher

/-- Pixel dimensions of a decoded image (`sharp(buffer).metadata()` width and
height, both positive in practice). -/
structure Dim where
  width : Nat
  height : Nat
deriving DecidableEq

/-- The node's horizontal alignment parameter (`'left' | 'center' | 'right'`). -/
inductive Alignment where
  | left
  | center
  | right
deriving DecidableEq

/-- The whitespace characters removed by JavaScript `String.prototype.trim`
(restricted to the ASCII range, which is all that can occur here). -/
def isJsWs (c : Char) : Bool :=
  c = ' ' || c = '\t' || c = '\n' || c = '\r' || c = '\x0b' || c = '\x0c'

/-- JavaScript `s.trim()` on a character list: drop whitespace from both ends. -/
def jsTrim (l : List Char) : List Char :=
  (((l.dropWhile isJsWs).reverse).dropWhile isJsWs).reverse

/-- JavaScript `toLowerCase` restricted to ASCII letters. -/
def jsToLower (c : Char) : Char :=
  if 'A' ≤ c ∧ c ≤ 'Z' then Char.ofNat (c.toNat + 32) else c

/-- JavaScript `input.replace('#', '')`: remove the first occurrence of `'#'`. -/
def removeFirstHash : List Char → List Char
  | [] => []
  | c :: rest => if c = '#' then rest else c :: removeFirstHash rest

/-- Value of one hexadecimal digit character, `none` for a non-digit. -/
def hexVal (c : Char) : Option Nat :=
  if '0' ≤ c ∧ c ≤ '9' then some (c.toNat - '0'.toNat)
  else if 'a' ≤ c ∧ c ≤ 'f' then some (c.toNat - 'a'.toNat + 10)
  else if 'A' ≤ c ∧ c ≤ 'F' then some (c.toNat - 'A'.toNat + 10)
  else none

/-- Accumulate the value of the longest leading run of hex digits. -/
def parseHexDigits (acc : Nat) : List Char → Nat
  | [] => acc
  | c :: cs =>
    match hexVal c with
    | some v => parseHexDigits (acc * 16 + v) cs
    | none => acc

/-- Value of the longest leading run of hex digits; `none` (JS `NaN`) when the
first character is not a hex digit. -/
def parseIntHexDigits : List Char → Option Nat
  | [] => none
  | c :: cs =>
    match hexVal c with
    | some v => some (parseHexDigits v cs)
    | none => none

/-- Strip a leading `0x`/`0X`, as JavaScript `parseInt` does for radix 16. -/
def stripHexMark : List Char → List Char
  | '0' :: 'x' :: rest => rest
  | '0' :: 'X' :: rest => rest
  | s => s

/-- JavaScript `parseInt(s, 16)`: skip leading whitespace, accept an optional
sign and an optional `0x` mark, then parse the longest hex-digit run; `none`
models `NaN`. -/
def parseIntHex (s : List Char) : Option Int :=
  match s.dropWhile isJsWs with
  | '-' :: rest => (parseIntHexDigits (stripHexMark rest)).map (fun n => -(n : Int))
  | '+' :: rest => (parseIntHexDigits (stripHexMark rest)).map (fun n => (n : Int))
  | s1 => (parseIntHexDigits (stripHexMark s1)).map (fun n => (n : Int))

/-- Result of `parseBackgroundColor`: channel values 0–255 (`none` models a
JavaScript `NaN` coming out of `parseInt`), alpha scaled to 0.0–1.0. -/
structure BgColor where
  r : Option Int
  g : Option Int
  b : Option Int
  alpha : Option ℚ
deriving DecidableEq

/-- `parseBackgroundColor` (ImageStitcher.node.ts lines 13–26): `undefined` or
empty input, or case-insensitive `transparent`, gives transparent black; after
removing the first `#` and trimming, a hex part of length 6 or 8 is parsed two
digits per channel with `parseInt(·, 16)` (length 8 adds alpha scaled by 255);
any other length falls back to opaque white. -/
def parseBackgroundColor (input : Option (List Char)) : BgColor :=
  match input with
  | none => { r := some 0, g := some 0, b := some 0, alpha := some 0 }
  | some s =>
    if s = [] ∨ s.map jsToLower = "transparent".data then
      { r := some 0, g := some 0, b := some 0, alpha := some 0 }
    else if (jsTrim (removeFirstHash s)).length = 6 ∨ (jsTrim (removeFirstHash s)).length = 8 then
      { r := parseIntHex ((jsTrim (removeFirstHash s)).take 2)
        g := parseIntHex (((jsTrim (removeFirstHash s)).drop 2).take 2)
        b := parseIntHex (((jsTrim (removeFirstHash s)).drop 4).take 2)
        alpha :=
          if (jsTrim (removeFirstHash s)).length = 8 then
            (parseIntHex (((jsTrim (removeFirstHash s)).drop 6).take 2)).map
              (fun n => (n : ℚ) / 255)
          else some 1 }
    else { r := some 255, g := some 255, b := some 255, alpha := some 1 }

/-- Canonical lowercase hex digit for a value below 16. -/
def toHexDigit (n : Nat) : Char :=
  if n < 10 then Char.ofNat ('0'.toNat + n) else Char.ofNat ('a'.toNat + (n - 10))

/-- Canonical two-digit lowercase hex encoding of a byte value. -/
def hexByte (n : Nat) : List Char :=
  [toHexDigit (n / 16), toHexDigit (n % 16)]

/-- Splitting on the regular expression `/\r?\n|,/` (ImageStitcher.node.ts
line 235): a comma or a line break (`\n`, optionally preceded by `\r`) ends the
current token; a `\r` not followed by `\n` stays inside the token. -/
def splitKeysGo : List Char → List Char → List (List Char)
  | cur, [] => [cur.reverse]
  | cur, '\r' :: '\n' :: cs => cur.reverse :: splitKeysGo [] cs
  | cur, '\n' :: cs => cur.reverse :: splitKeysGo [] cs
  | cur, ',' :: cs => cur.reverse :: splitKeysGo [] cs
  | cur, c :: cs => splitKeysGo (c :: cur) cs

/-- Key parsing for a single-string `sourceKeys` parameter (lines 233–237):
split on newline or comma, trim each entry, drop entries that are empty after
trimming. -/
def parseKeys (s : List Char) : List (List Char) :=
  ((splitKeysGo [] s).map jsTrim).filter (fun k => !k.isEmpty)

/-- The validation of lines 256–261: a missing source bucket or an empty parsed
key list raises a `NodeOperationError`; otherwise the parsed keys are used. -/
def validateRequest (sourceBucket : List Char) (sourceKeysParam : List Char) :
    Except (List Char) (List (List Char)) :=
  let keys := parseKeys sourceKeysParam
  if sourceBucket = [] then Except.error ("Source bucket is required".data)
  else if keys = [] then Except.error ("At least one source key is required".data)
  else Except.ok keys

/-- Modelled from the spec: the sharp resize collaborator (external imaging
library, not part of this repository).  `resize({ width, withoutEnlargement })`
scales to the target width with the height scaled proportionally and rounded to
the nearest whole pixel; with `withoutEnlargement` set, an image narrower than
the target width is left unresized. -/
def resizeDim (targetWidth : Nat) (withoutEnlargement : Bool) (d : Dim) : Dim :=
  if withoutEnlargement ∧ d.width < targetWidth then d
  else { width := targetWidth
         height := (2 * d.height * targetWidth + d.width) / (2 * d.width) }

/-- `Math.max(...dimensions.map(d => d.width))` (line 277) for a non-empty
list. -/
def maxWidth (dims : List Dim) : Nat :=
  dims.foldr (fun d acc => max d.width acc) 0

/-- Output of the width-normalization stage: per-image dimensions and the
canvas width. -/
structure NormResult where
  dims : List Dim
  canvasWidth : Nat
deriving DecidableEq

/-- Lines 276–293: the target width is the explicit parameter when positive,
else the maximum source width; when `normalizeWidth` is set, every image whose
width differs from the target is resized (`withoutEnlargement` is the negation
of `allowUpscale`) and the canvas width becomes the target width; otherwise
dimensions are untouched and the canvas width is the maximum source width. -/
def normalize (normalizeWidth : Bool) (targetWidthParam : Nat) (allowUpscale : Bool)
    (dims : List Dim) : NormResult :=
  let maxW := maxWidth dims
  let targetWidth :=
    if normalizeWidth then (if 0 < targetWidthParam then targetWidthParam else maxW) else maxW
  if normalizeWidth then
    { dims := dims.map (fun d =>
        if d.width ≠ targetWidth then resizeDim targetWidth (!allowUpscale) d else d)
      canvasWidth := targetWidth }
  else
    { dims := dims, canvasWidth := maxW }

/-- Line 295: `canvasHeight = Σ heights + Math.max(0, (n − 1) * spacing)`. -/
def canvasHeight (dims : List Dim) (spacing : Int) : Int :=
  (dims.map (fun d => (d.height : Int))).sum + max 0 (((dims.length : Int) - 1) * spacing)

/-- Lines 311–316: the horizontal offset of one image on the canvas. -/
def computeLeft (alignment : Alignment) (canvasWidth : Nat) (width : Nat) : Int :=
  match alignment with
  | Alignment.left => 0
  | Alignment.center => Int.fdiv ((canvasWidth : Int) - (width : Int)) 2
  | Alignment.right => (canvasWidth : Int) - (width : Int)

/-- One entry of the `composites` array together with the dimensions of the
image placed there. -/
structure Placement where
  left : Int
  top : Int
  width : Nat
  height : Nat
deriving DecidableEq

/-- The loop of lines 307–319: record a placement at the running top offset,
then advance by the image height plus spacing — except that no spacing is added
after the last image. -/
def buildPlacementsGo (alignment : Alignment) (canvasWidth : Nat) (spacing : Int) :
    Int → List Dim → List Placement
  | _, [] => []
  | offsetTop, d :: rest =>
    { left := computeLeft alignment canvasWidth d.width
      top := offsetTop
      width := d.width
      height := d.height }
      :: buildPlacementsGo alignment canvasWidth spacing
          (offsetTop + (d.height : Int) + (if rest.isEmpty then 0 else spacing)) rest

/-- Placements for a whole request: the running top offset starts at 0. -/
def buildPlacements (alignment : Alignment) (canvasWidth : Nat) (spacing : Int)
    (dims : List Dim) : List Placement :=
  buildPlacementsGo alignment canvasWidth spacing 0 dims

/-- Sum of all image heights, as an integer. -/
def heightsSum (dims : List Dim) : Int :=
  (dims.map (fun d => (d.height : Int))).sum

/-- Sum of the heights of the first `i` images. -/
def sumTakeHeights (dims : List Dim) (i : Nat) : Int :=
  ((dims.take i).map (fun d => (d.height : Int))).sum

/-- Canvas geometry and placements of one request, combining normalization
(lines 276–293), the canvas height (line 295) and the placement loop
(lines 307–319). -/
structure LayoutResult where
  canvasWidth : Nat
  canvasHeight : Int
  placements : List Placement
deriving DecidableEq

/-- Layout of one request from its decoded source dimensions. -/
def layoutRequest (normalizeWidth : Bool) (targetWidthParam : Nat) (allowUpscale : Bool)
    (alignment : Alignment) (spacing : Int) (dims : List Dim) : LayoutResult :=
  let nr := normalize normalizeWidth targetWidthParam allowUpscale dims
  { canvasWidth := nr.canvasWidth
    canvasHeight := canvasHeight nr.dims spacing
    placements := buildPlacements alignment nr.canvasWidth spacing nr.dims }

/-- Encoded image bytes, kept abstract. -/
abbrev Buffer := List Nat

/-- One `putObject` call against the object store. -/
structure PutCall where
  bucket : List Char
  key : List Char
  data : Buffer
  contentType : List Char
deriving DecidableEq

/-- Modelled from the spec: the object store collaborator's put operation
(`put(bucket, key, bytes, contentType) -> contentId`), modelled as appending
the call to the store's log and returning a fresh content identifier. -/
def putObject (store : List PutCall) (bucket key : List Char) (data : Buffer)
    (contentType : List Char) : List PutCall × Nat :=
  (store ++ [{ bucket := bucket, key := key, data := data, contentType := contentType }],
   store.length)

/-- The `uploaded` field of the result record. -/
structure UploadInfo where
  bucket : List Char
  key : List Char
  etag : Option Nat
deriving DecidableEq

/-- The `json` part of the result record of one request (line 344–349); the
`uploaded` field is `none` when the upload was skipped. -/
structure ResultJson where
  sourceBucket : List Char
  sourceKeys : List (List Char)
  canvasWidth : Nat
  canvasHeight : Int
  uploaded : Option UploadInfo
deriving DecidableEq

/-- Lines 336–349: upload the encoded buffer only when both destination bucket
and destination key are non-empty, and build the result record, whose
`uploaded` field is populated under exactly the same condition. -/
def publishAndReport (store : List PutCall) (destinationBucket destinationKey : List Char)
    (outBuffer : Buffer) (mimeType : List Char) (sourceBucket : List Char)
    (keys : List (List Char)) (cw : Nat) (ch : Int) : List PutCall × ResultJson :=
  let uploadedState :=
    if destinationBucket ≠ [] ∧ destinationKey ≠ [] then
      some (putObject store destinationBucket destinationKey outBuffer mimeType)
    else none
  let store1 :=
    match uploadedState with
    | some p => p.1
    | none => store
  (store1,
   { sourceBucket := sourceBucket
     sourceKeys := keys
     canvasWidth := cw
     canvasHeight := ch
     uploaded :=
       if destinationBucket ≠ [] ∧ destinationKey ≠ [] then
         some { bucket := destinationBucket, key := destinationKey
                etag := uploadedState.map (fun p => p.2) }
       else none })

/-- One slot of the node's output array: either a successful result or the
error placeholder `{ json: { error }, pairedItem: itemIndex }` of line 364. -/
inductive ItemResult (E R : Type) where
  | ok (value : R)
  | errorRecord (message : E) (pairedItem : Nat)
deriving DecidableEq

/-- The batch loop of lines 210–373: items are processed in order; a failure is
recorded in place (tagged with its item index) when `continueOnFail` is set,
and otherwise aborts the whole batch carrying the failing item's index. -/
def processItemsGo {α E R : Type} (continueOnFail : Bool) (runOne : α → Except E R) :
    Nat → List α → Except (E × Nat) (List (ItemResult E R))
  | _, [] => Except.ok []
  | itemIndex, item :: rest =>
    match runOne item with
    | Except.ok r =>
      (processItemsGo continueOnFail runOne (itemIndex + 1) rest).map
        (fun l => ItemResult.ok r :: l)
    | Except.error e =>
      if continueOnFail then
        (processItemsGo continueOnFail runOne (itemIndex + 1) rest).map
          (fun l => ItemResult.errorRecord e itemIndex :: l)
      else Except.error (e, itemIndex)

/-- The batch loop started at item index 0. -/
def processItems {α E R : Type} (continueOnFail : Bool) (runOne : α → Except E R)
    (items : List α) : Except (E × Nat) (List (ItemResult E R)) :=
  processItemsGo continueOnFail runOne 0 items

/-! ### Helper lemmas about the layout arithmetic -/

theorem sumTakeHeights_cons_succ (d : Dim) (rest : List Dim) (i : Nat) :
    sumTakeHeights (d :: rest) (i + 1) = (d.height : Int) + sumTakeHeights rest i := by
  simp [sumTakeHeights]

theorem sumTakeHeights_get_succ (dims : List Dim) (i : Nat) (d : Dim)
    (h : dims[i]? = some d) :
    sumTakeHeights dims (i + 1) = sumTakeHeights dims i + (d.height : Int) := by
  unfold sumTakeHeights
  rw [List.take_succ, h]
  simp

theorem sumTakeHeights_le_succ (dims : List Dim) (i : Nat) :
    sumTakeHeights dims i ≤ sumTakeHeights dims (i + 1) := by
  unfold sumTakeHeights
  rw [List.take_succ]
  cases h : dims[i]? with
  | none => simp
  | some d => simp

theorem sumTakeHeights_mono (dims : List Dim) {i j : Nat} (h : i ≤ j) :
    sumTakeHeights dims i ≤ sumTakeHeights dims j := by
  induction h with
  | refl => exact le_refl _
  | step _ ih => exact le_trans ih (sumTakeHeights_le_succ _ _)

theorem sumTakeHeights_length (dims : List Dim) :
    sumTakeHeights dims dims.length = heightsSum dims := by
  simp [sumTakeHeights, heightsSum]

theorem buildPlacementsGo_getElem? (alignment : Alignment) (W : Nat) (s : Int)
    (dims : List Dim) : ∀ (off : Int) (i : Nat),
    (buildPlacementsGo alignment W s off dims)[i]? =
      (dims[i]?).map (fun d =>
        { left := computeLeft alignment W d.width
          top := off + sumTakeHeights dims i + (i : Int) * s
          width := d.width, height := d.height }) := by
  induction dims with
  | nil => intro off i; simp [buildPlacementsGo]
  | cons d rest ih =>
    intro off i
    cases i with
    | zero =>
      simp [buildPlacementsGo, sumTakeHeights]
    | succ i =>
      have step := ih (off + (d.height : Int) + (if rest.isEmpty then 0 else s)) i
      simp only [buildPlacementsGo, List.getElem?_cons_succ, step, sumTakeHeights_cons_succ]
      cases hr : rest[i]? with
      | none => simp
      | some d2 =>
        have hne : rest.isEmpty = false := by
          by_contra hcon
          simp only [Bool.not_eq_false, List.isEmpty_iff] at hcon
          subst hcon
          simp at hr
        rw [hne]
        simp only [Option.map_some', Option.some.injEq, Placement.mk.injEq,
          true_and, and_true]
        push_cast
        ring

/-- Everything the placement loop records at index `i`, in terms of the source
dimension list. -/
theorem placement_spec (alignment : Alignment) (W : Nat) (spacing : Int)
    (dims : List Dim) (i : Nat) (p : Placement)
    (h : (buildPlacements alignment W spacing dims)[i]? = some p) :
    ∃ d, dims[i]? = some d ∧
      p = { left := computeLeft alignment W d.width
            top := sumTakeHeights dims i + (i : Int) * spacing
            width := d.width, height := d.height } := by
  have hgo := buildPlacementsGo_getElem? alignment W spacing dims 0 i
  rw [buildPlacements, hgo] at h
  cases hd : dims[i]? with
  | none => rw [hd] at h; simp at h
  | some d =>
    rw [hd, Option.map_some'] at h
    refine ⟨d, rfl, ?_⟩
    have := Option.some.inj h
    rw [← this]
    simp

/-! ### Claims about the layout arithmetic -/

/-- C1: for every request with `n ≥ 1` images (and the non-negative spacing of
the request schema), the canvas height computed at line 295 equals the sum of
the post-normalization image heights plus `spacing × (n − 1)`, and when `n = 1`
the spacing term contributes 0. -/
theorem C1_canvas_height (dims : List Dim) (spacing : Int)
    (hn : 1 ≤ dims.length) (hs : 0 ≤ spacing) :
    canvasHeight dims spacing = heightsSum dims + spacing * ((dims.length : Int) - 1)
      ∧ (dims.length = 1 → canvasHeight dims spacing = heightsSum dims) := by
  have hone : (1 : Int) ≤ (dims.length : Int) := by exact_mod_cast hn
  have h1 : (0 : Int) ≤ ((dims.length : Int) - 1) * spacing :=
    mul_nonneg (by omega) hs
  constructor
  · unfold canvasHeight heightsSum
    rw [max_eq_right h1]
    ring
  · intro h1len
    unfold canvasHeight heightsSum
    rw [h1len]
    simp

theorem C1_canvas_height_witness :
    canvasHeight [⟨100, 50⟩, ⟨100, 80⟩] 10
        = heightsSum [⟨100, 50⟩, ⟨100, 80⟩]
            + 10 * ((([⟨100, 50⟩, ⟨100, 80⟩] : List Dim).length : Int) - 1)
      ∧ (([⟨100, 50⟩, ⟨100, 80⟩] : List Dim).length = 1 →
          canvasHeight [⟨100, 50⟩, ⟨100, 80⟩] 10 = heightsSum [⟨100, 50⟩, ⟨100, 80⟩]) :=
  C1_canvas_height [⟨100, 50⟩, ⟨100, 80⟩] 10 (by decide) (by decide)

/-- C2: the top offset of image `i` is the sum of all prior image heights plus
one spacing per prior image; with non-negative spacing the top offsets are
therefore non-decreasing in input order; and for two images of heights 50 and
80 with spacing 10 the tops are 0 and 60 and the canvas height is 140. -/
theorem C2_top_offsets (alignment : Alignment) (W : Nat) (spacing : Int) (dims : List Dim) :
    (∀ i p, (buildPlacements alignment W spacing dims)[i]? = some p →
        p.top = sumTakeHeights dims i + (i : Int) * spacing)
    ∧ (0 ≤ spacing → ∀ (i j : Nat) (p q : Placement), i ≤ j →
        (buildPlacements alignment W spacing dims)[i]? = some p →
        (buildPlacements alignment W spacing dims)[j]? = some q →
        p.top ≤ q.top)
    ∧ buildPlacements Alignment.left 100 10 [⟨100, 50⟩, ⟨100, 80⟩]
        = [⟨0, 0, 100, 50⟩, ⟨0, 60, 100, 80⟩]
    ∧ canvasHeight [⟨100, 50⟩, ⟨100, 80⟩] 10 = 140 := by
  have key : ∀ i p, (buildPlacements alignment W spacing dims)[i]? = some p →
      p.top = sumTakeHeights dims i + (i : Int) * spacing := by
    intro i p hp
    obtain ⟨d, _, rfl⟩ := placement_spec alignment W spacing dims i p hp
    rfl
  refine ⟨key, ?_, by decide, by decide⟩
  intro hs i j p q hij hp hq
  rw [key i p hp, key j q hq]
  have hcast : (i : Int) ≤ (j : Int) := by exact_mod_cast hij
  exact add_le_add (sumTakeHeights_mono dims hij)
    (mul_le_mul_of_nonneg_right hcast hs)

theorem C2_top_offsets_witness :
    (⟨0, 60, 100, 80⟩ : Placement).top
      = sumTakeHeights [⟨100, 50⟩, ⟨100, 80⟩] 1 + ((1 : Nat) : Int) * 10 :=
  (C2_top_offsets Alignment.left 100 10 [⟨100, 50⟩, ⟨100, 80⟩]).1 1
    ⟨0, 60, 100, 80⟩ (by decide)

/-- C3: every placement's horizontal offset is 0 for left alignment,
`⌊(W − w) / 2⌋` for center alignment and `W − w` for right alignment, where `W`
is the canvas width and `w` the placed image's width. -/
theorem C3_alignment_offsets (alignment : Alignment) (W : Nat) (spacing : Int)
    (dims : List Dim) (i : Nat) (p : Placement)
    (h : (buildPlacements alignment W spacing dims)[i]? = some p) :
    (alignment = Alignment.left → p.left = 0)
    ∧ (alignment = Alignment.center →
        p.left = Int.fdiv ((W : Int) - (p.width : Int)) 2)
    ∧ (alignment = Alignment.right → p.left = (W : Int) - (p.width : Int)) := by
  obtain ⟨d, _, rfl⟩ := placement_spec alignment W spacing dims i p h
  refine ⟨?_, ?_, ?_⟩ <;> intro ha <;> subst ha <;> rfl

theorem C3_alignment_offsets_witness :
    (Alignment.center = Alignment.left → (⟨31, 0, 37, 10⟩ : Placement).left = 0)
    ∧ (Alignment.center = Alignment.center →
        (⟨31, 0, 37, 10⟩ : Placement).left
          = Int.fdiv ((100 : Int) - ((⟨31, 0, 37, 10⟩ : Placement).width : Int)) 2)
    ∧ (Alignment.center = Alignment.right →
        (⟨31, 0, 37, 10⟩ : Placement).left
          = (100 : Int) - ((⟨31, 0, 37, 10⟩ : Placement).width : Int)) :=
  C3_alignment_offsets Alignment.center 100 0 [⟨37, 10⟩] 0 ⟨31, 0, 37, 10⟩ (by decide)

/-- C10: spacing is never validated; with `n ≥ 2` images and negative spacing
the canvas height clamps only the total spacing term to zero (line 295), while
the placement loop still adds the negative spacing per step, so the last
image's bottom edge lies strictly above the canvas bottom and each image begins
above the previous image's bottom edge; with non-negative spacing the last
image's bottom edge equals the canvas height exactly. -/
theorem C10_negative_spacing (alignment : Alignment) (W : Nat) (dims : List Dim)
    (spacing : Int) (hn : 2 ≤ dims.length) :
    (spacing < 0 →
      canvasHeight dims spacing = heightsSum dims
      ∧ (∀ p, (buildPlacements alignment W spacing dims)[dims.length - 1]? = some p →
          p.top + (p.height : Int) < canvasHeight dims spacing)
      ∧ (∀ (i : Nat) (p q : Placement),
          (buildPlacements alignment W spacing dims)[i]? = some p →
          (buildPlacements alignment W spacing dims)[i + 1]? = some q →
          q.top < p.top + (p.height : Int)))
    ∧ (0 ≤ spacing →
      ∀ p, (buildPlacements alignment W spacing dims)[dims.length - 1]? = some p →
        p.top + (p.height : Int) = canvasHeight dims spacing) := by
  have hone : (1 : Int) ≤ (dims.length : Int) - 1 := by
    have : (2 : Int) ≤ (dims.length : Int) := by exact_mod_cast hn
    omega
  have hlast : ∀ p, (buildPlacements alignment W spacing dims)[dims.length - 1]? = some p →
      p.top + (p.height : Int)
        = heightsSum dims + ((dims.length : Int) - 1) * spacing := by
    intro p hp
    obtain ⟨d, hd, rfl⟩ := placement_spec alignment W spacing dims (dims.length - 1) p hp
    have hsucc := sumTakeHeights_get_succ dims (dims.length - 1) d hd
    have hlen : dims.length - 1 + 1 = dims.length := by omega
    rw [hlen] at hsucc
    have hcast : ((dims.length - 1 : Nat) : Int) = (dims.length : Int) - 1 := by
      have : 1 ≤ dims.length := by omega
      push_cast [this]
      ring
    calc sumTakeHeights dims (dims.length - 1)
          + ((dims.length - 1 : Nat) : Int) * spacing + (d.height : Int)
        = sumTakeHeights dims dims.length + ((dims.length - 1 : Nat) : Int) * spacing := by
          rw [hsucc]; ring
      _ = heightsSum dims + ((dims.length : Int) - 1) * spacing := by
          rw [sumTakeHeights_length, hcast]
  constructor
  · intro hneg
    have hclamp : canvasHeight dims spacing = heightsSum dims := by
      unfold canvasHeight heightsSum
      have : ((dims.length : Int) - 1) * spacing < 0 :=
        mul_neg_of_pos_of_neg (by omega) hneg
      rw [max_eq_left (le_of_lt this)]
      ring
    refine ⟨hclamp, ?_, ?_⟩
    · intro p hp
      rw [hlast p hp, hclamp]
      have : ((dims.length : Int) - 1) * spacing < 0 :=
        mul_neg_of_pos_of_neg (by omega) hneg
      omega
    · intro i p q hp hq
      obtain ⟨d, hd, rfl⟩ := placement_spec alignment W spacing dims i p hp
      obtain ⟨d2, _, rfl⟩ := placement_spec alignment W spacing dims (i + 1) q hq
      have hsucc := sumTakeHeights_get_succ dims i d hd
      simp only [Placement.mk.injEq]
      show sumTakeHeights dims (i + 1) + ((i + 1 : Nat) : Int) * spacing
          < sumTakeHeights dims i + (i : Int) * spacing + (d.height : Int)
      rw [hsucc]
      push_cast
      nlinarith [hneg]
  · intro hs p hp
    rw [hlast p hp]
    unfold canvasHeight heightsSum
    have : (0 : Int) ≤ ((dims.length : Int) - 1) * spacing :=
      mul_nonneg (by omega) hs
    rw [max_eq_right this]

theorem C10_negative_spacing_witness :
    canvasHeight [⟨100, 50⟩, ⟨100, 80⟩] (-10) = heightsSum [⟨100, 50⟩, ⟨100, 80⟩] :=
  (((C10_negative_spacing Alignment.left 100 [⟨100, 50⟩, ⟨100, 80⟩] (-10)
      (by decide)).1 (by decide))).1

/-! ### Helper lemmas about width normalization -/

theorem width_le_maxWidth (dims : List Dim) (d : Dim) (h : d ∈ dims) :
    d.width ≤ maxWidth dims := by
  induction dims with
  | nil => cases h
  | cons a rest ih =>
    simp only [maxWidth, List.foldr_cons]
    rcases List.mem_cons.mp h with rfl | hm
    · exact le_max_left _ _
    · exact le_trans (ih hm) (le_max_right _ _)

theorem normalize_true_spec (twp : Nat) (u : Bool) (dims : List Dim) :
    normalize true twp u dims
      = { dims := dims.map (fun d =>
            if d.width ≠ (if 0 < twp then twp else maxWidth dims)
            then resizeDim (if 0 < twp then twp else maxWidth dims) (!u) d else d)
          canvasWidth := if 0 < twp then twp else maxWidth dims } := by
  simp [normalize]

theorem normalize_false_spec (twp : Nat) (u : Bool) (dims : List Dim) :
    normalize false twp u dims = { dims := dims, canvasWidth := maxWidth dims } := by
  simp [normalize]

/-! ### Claims about width normalization -/

/-- C4 counterexample: with `normalizeWidth = true`, `targetWidth = 0` and
`allowUpscale = false`, the source list `[100×50, 50×80]` yields canvas width
100 while the second image keeps width 50 (`withoutEnlargement` leaves it
unresized), so not every output image has the canvas width. -/
theorem C4_counterexample :
    (normalize true 0 false [⟨100, 50⟩, ⟨50, 80⟩]).canvasWidth
        = maxWidth [⟨100, 50⟩, ⟨50, 80⟩]
    ∧ (normalize true 0 false [⟨100, 50⟩, ⟨50, 80⟩]).dims = [⟨100, 50⟩, ⟨50, 80⟩]
    ∧ ¬ (∀ d ∈ (normalize true 0 false [⟨100, 50⟩, ⟨50, 80⟩]).dims,
          d.width = (normalize true 0 false [⟨100, 50⟩, ⟨50, 80⟩]).canvasWidth) := by
  decide

/-- C4 (amended): with `normalizeWidth = true` and `targetWidth = 0` the canvas
width is the maximum source width and every output image is at most that wide;
all output images have exactly the canvas width when `allowUpscale = true`
(with `allowUpscale = false` an image narrower than the maximum keeps its own
width). -/
theorem C4_auto_target_width (allowUpscale : Bool) (dims : List Dim) :
    (normalize true 0 allowUpscale dims).canvasWidth = maxWidth dims
    ∧ (∀ d ∈ (normalize true 0 allowUpscale dims).dims, d.width ≤ maxWidth dims)
    ∧ (allowUpscale = true →
        ∀ d ∈ (normalize true 0 allowUpscale dims).dims, d.width = maxWidth dims) := by
  have hs := normalize_true_spec 0 allowUpscale dims
  simp only [lt_self_iff_false, if_false] at hs
  rw [hs]
  refine ⟨rfl, ?_, ?_⟩
  · intro d hd
    simp only [List.mem_map] at hd
    obtain ⟨d0, _, rfl⟩ := hd
    by_cases hw : d0.width ≠ maxWidth dims
    · rw [if_pos hw]
      unfold resizeDim
      split_ifs with hcond
      · exact le_of_lt hcond.2
      · exact le_refl _
    · rw [if_neg hw]
      push_neg at hw
      exact le_of_eq hw
  · intro hu d hd
    subst hu
    simp only [Bool.not_true, List.mem_map] at hd
    obtain ⟨d0, _, rfl⟩ := hd
    by_cases hw : d0.width ≠ maxWidth dims
    · rw [if_pos hw]
      unfold resizeDim
      rw [if_neg (by simp)]
    · rw [if_neg hw]
      push_neg at hw
      exact hw

theorem C4_auto_target_width_witness :
    (⟨20, 20⟩ : Dim).width = maxWidth [⟨10, 10⟩, ⟨20, 20⟩] :=
  (C4_auto_target_width true [⟨10, 10⟩, ⟨20, 20⟩]).2.2 rfl ⟨20, 20⟩ (by decide)

/-- With `withoutEnlargement` set, the normalization step never enlarges an
image: the resulting width is at most the original width and at most the
target width. -/
theorem normMapWidth_le (tw : Nat) (d0 : Dim) :
    (if d0.width ≠ tw then resizeDim tw true d0 else d0).width ≤ d0.width
    ∧ (if d0.width ≠ tw then resizeDim tw true d0 else d0).width ≤ tw := by
  by_cases hw : d0.width ≠ tw
  · rw [if_pos hw]
    unfold resizeDim
    by_cases hlt : d0.width < tw
    · rw [if_pos (by simpa using hlt)]
      exact ⟨le_refl _, le_of_lt hlt⟩
    · rw [if_neg (by simpa using hlt)]
      exact ⟨le_of_not_lt hlt, le_refl _⟩
  · rw [if_neg hw]
    push_neg at hw
    exact ⟨le_refl _, le_of_eq hw⟩

/-- C5: with `allowUpscale = false` (sharp's `withoutEnlargement`) no image is
ever enlarged: every placement's width is at most the corresponding source
image's width, at most the canvas width, and the alignment offset is computed
from that (possibly smaller) placed width. -/
theorem C5_no_upscale (normalizeWidth : Bool) (targetWidthParam : Nat)
    (alignment : Alignment) (spacing : Int) (dims : List Dim) (i : Nat) (p : Placement)
    (h : (layoutRequest normalizeWidth targetWidthParam false alignment spacing
        dims).placements[i]? = some p) :
    (∃ d, dims[i]? = some d ∧ p.width ≤ d.width)
    ∧ p.width ≤ (layoutRequest normalizeWidth targetWidthParam false alignment spacing
        dims).canvasWidth
    ∧ p.left = computeLeft alignment
        (layoutRequest normalizeWidth targetWidthParam false alignment spacing
          dims).canvasWidth p.width := by
  simp only [layoutRequest] at h ⊢
  obtain ⟨d1, hd1, rfl⟩ := placement_spec alignment
    (normalize normalizeWidth targetWidthParam false dims).canvasWidth spacing
    (normalize normalizeWidth targetWidthParam false dims).dims i _ h
  cases normalizeWidth with
  | false =>
    rw [normalize_false_spec] at hd1
    refine ⟨⟨d1, hd1, le_refl _⟩, ?_, rfl⟩
    rw [normalize_false_spec]
    exact width_le_maxWidth dims d1 (List.getElem?_mem hd1)
  | true =>
    rw [normalize_true_spec] at hd1
    simp only [List.getElem?_map, Bool.not_false] at hd1
    cases hd : dims[i]? with
    | none => rw [hd] at hd1; simp at hd1
    | some d0 =>
      rw [hd, Option.map_some'] at hd1
      have hd1eq : d1 = (if d0.width ≠ (if 0 < targetWidthParam then targetWidthParam
          else maxWidth dims) then resizeDim (if 0 < targetWidthParam then targetWidthParam
          else maxWidth dims) true d0 else d0) := (Option.some.inj hd1).symm
      have hfacts := normMapWidth_le
        (if 0 < targetWidthParam then targetWidthParam else maxWidth dims) d0
      rw [← hd1eq] at hfacts
      refine ⟨⟨d0, rfl, hfacts.1⟩, ?_, rfl⟩
      rw [normalize_true_spec]
      exact hfacts.2

/-! ### Helper lemmas about trimming and key parsing -/

theorem dropWhile_idem {α : Type} (p : α → Bool) (l : List α) :
    List.dropWhile p (List.dropWhile p l) = List.dropWhile p l := by
  induction l with
  | nil => rfl
  | cons a l ih =>
    by_cases h : p a
    · rw [List.dropWhile_cons_of_pos h]
      exact ih
    · rw [List.dropWhile_cons_of_neg h, List.dropWhile_cons_of_neg h]

theorem dropWhile_length_le {α : Type} (p : α → Bool) (l : List α) :
    (List.dropWhile p l).length ≤ l.length := by
  induction l with
  | nil => exact le_refl _
  | cons a l ih =>
    by_cases h : p a
    · rw [List.dropWhile_cons_of_pos h]
      exact le_trans ih (Nat.le_succ _)
    · rw [List.dropWhile_cons_of_neg h]

theorem dropWhile_eq_self_cons {α : Type} (p : α → Bool) (a : α) (l : List α)
    (h : List.dropWhile p (a :: l) = a :: l) : p a = false := by
  by_contra hcon
  have ha : p a = true := by revert hcon; cases p a <;> simp
  rw [List.dropWhile_cons_of_pos ha] at h
  have hlen := congrArg List.length h
  have hle := dropWhile_length_le p l
  simp only [List.length_cons] at hlen
  omega

theorem dropWhile_eq_self_of_prefix {α : Type} (p : α → Bool) {l m : List α}
    (hpre : m <+: l) (hl : List.dropWhile p l = l) :
    List.dropWhile p m = m := by
  cases m with
  | nil => rfl
  | cons a t =>
    obtain ⟨r, rfl⟩ := hpre
    simp only [List.cons_append] at hl
    have ha := dropWhile_eq_self_cons p a (t ++ r) hl
    rw [List.dropWhile_cons_of_neg (by simp [ha])]

theorem trimEnd_prefix {α : Type} (p : α → Bool) (l : List α) :
    ((l.reverse.dropWhile p).reverse) <+: l := by
  have hsuf : l.reverse.dropWhile p <:+ l.reverse := List.dropWhile_suffix p
  have hres := List.reverse_prefix.mpr hsuf
  rw [List.reverse_reverse] at hres
  exact hres

theorem jsTrim_idem (l : List Char) : jsTrim (jsTrim l) = jsTrim l := by
  unfold jsTrim
  have hYclean : List.dropWhile isJsWs (List.dropWhile isJsWs l)
      = List.dropWhile isJsWs l := dropWhile_idem isJsWs l
  have hXpre := trimEnd_prefix isJsWs (List.dropWhile isJsWs l)
  have hXclean := dropWhile_eq_self_of_prefix isJsWs hXpre hYclean
  rw [hXclean, List.reverse_reverse, dropWhile_idem]

theorem parseKeys_mem (s k : List Char) (h : k ∈ parseKeys s) :
    k ≠ [] ∧ jsTrim k = k := by
  unfold parseKeys at h
  rw [List.mem_filter] at h
  obtain ⟨hmem, hne⟩ := h
  rw [List.mem_map] at hmem
  obtain ⟨raw, _, rfl⟩ := hmem
  refine ⟨?_, jsTrim_idem raw⟩
  intro hk
  rw [hk] at hne
  simp at hne

theorem validateRequest_error_iff (bucket s : List Char) :
    (∃ e, validateRequest bucket s = Except.error e)
      ↔ (bucket = [] ∨ parseKeys s = []) := by
  simp only [validateRequest]
  split_ifs with h1 h2
  · simp [h1]
  · simp [h1, h2]
  · simp [h1, h2]

/-! ### Claims about key parsing, publishing and the batch loop -/

/-- C7: key parsing produces an ordered list of non-empty trimmed strings —
splitting a single-string input on newline or comma and discarding entries
empty after trimming — with `"a.png,b.png"` parsing to `["a.png", "b.png"]`,
and the request fails with a validation error exactly when the parsed key list
is empty or the source bucket is missing. -/
theorem C7_key_parsing :
    (∀ (s : List Char), ∀ k ∈ parseKeys s, k ≠ [] ∧ jsTrim k = k)
    ∧ parseKeys ("a.png,b.png".data) = ["a.png".data, "b.png".data]
    ∧ (∀ (bucket s : List Char),
        (∃ e, validateRequest bucket s = Except.error e)
          ↔ (bucket = [] ∨ parseKeys s = []))
    ∧ (∀ (bucket s : List Char), bucket ≠ [] → parseKeys s ≠ [] →
        validateRequest bucket s = Except.ok (parseKeys s)) := by
  refine ⟨fun s k h => parseKeys_mem s k h, by decide,
    fun bucket s => validateRequest_error_iff bucket s, ?_⟩
  intro bucket s h1 h2
  simp only [validateRequest]
  rw [if_neg h1, if_neg h2]

theorem C7_key_parsing_witness :
    validateRequest ("imgs".data) ("a.png,b.png".data)
      = Except.ok (parseKeys ("a.png,b.png".data)) :=
  C7_key_parsing.2.2.2 ("imgs".data) ("a.png,b.png".data) (by decide) (by decide)

/-- C8: an upload to the object store occurs exactly when both the destination
bucket and the destination key are non-empty; when either is unset the store is
unchanged (no put call is made) and the result record's `uploaded` field is
absent. -/
theorem C8_upload_iff (store : List PutCall) (destB destK : List Char)
    (outBuffer : Buffer) (mimeType sourceBucket : List Char)
    (keys : List (List Char)) (cw : Nat) (ch : Int) :
    ((publishAndReport store destB destK outBuffer mimeType sourceBucket keys cw ch).1
        ≠ store ↔ (destB ≠ [] ∧ destK ≠ []))
    ∧ ((publishAndReport store destB destK outBuffer mimeType sourceBucket keys cw
        ch).2.uploaded.isSome = true ↔ (destB ≠ [] ∧ destK ≠ []))
    ∧ (¬(destB ≠ [] ∧ destK ≠ []) →
        (publishAndReport store destB destK outBuffer mimeType sourceBucket keys cw ch).1
          = store
        ∧ (publishAndReport store destB destK outBuffer mimeType sourceBucket keys cw
            ch).2.uploaded = none)
    ∧ ((destB ≠ [] ∧ destK ≠ []) →
        (publishAndReport store destB destK outBuffer mimeType sourceBucket keys cw ch).1
          = store ++ [(⟨destB, destK, outBuffer, mimeType⟩ : PutCall)]) := by
  by_cases h : destB ≠ [] ∧ destK ≠ []
  · simp only [publishAndReport, putObject, if_pos h]
    refine ⟨?_, ?_, fun hcon => absurd h hcon, fun _ => by trivial⟩
    · constructor
      · intro _
        exact h
      · intro _ heq
        have hlen := congrArg List.length heq
        rw [List.length_append] at hlen
        simp at hlen
    · simp [h]
  · simp only [publishAndReport, putObject, if_neg h]
    exact ⟨by simp [h], by simp [h], fun _ => by constructor <;> trivial,
      fun hcon => absurd hcon h⟩

theorem C8_upload_iff_witness :
    (publishAndReport [] ("out".data) ("res.png".data) [1, 2] ("image/png".data)
        ("imgs".data) [] 100 140).1
      = [] ++ [(⟨"out".data, "res.png".data, [1, 2], "image/png".data⟩ : PutCall)] :=
  (C8_upload_iff [] ("out".data) ("res.png".data) [1, 2] ("image/png".data)
      ("imgs".data) [] 100 140).2.2.2 ⟨by decide, by decide⟩

theorem processItemsGo_continue {α E R : Type} (runOne : α → Except E R)
    (items : List α) : ∀ (start : Nat),
    processItemsGo true runOne start items
      = Except.ok ((items.enumFrom start).map (fun pr =>
          match runOne pr.2 with
          | Except.ok r => ItemResult.ok r
          | Except.error e => ItemResult.errorRecord e pr.1)) := by
  induction items with
  | nil => intro start; rfl
  | cons a rest ih =>
    intro start
    cases hr : runOne a with
    | ok r =>
      simp only [processItemsGo, hr, ih (start + 1), Except.map, List.enumFrom,
        List.map_cons]
    | error e =>
      simp only [processItemsGo, hr, ih (start + 1), if_true, Except.map,
        List.enumFrom, List.map_cons]

theorem processItemsGo_abort {α E R : Type} (runOne : α → Except E R) :
    ∀ (items : List α) (start i : Nat) (item : α) (e : E),
    items[i]? = some item → runOne item = Except.error e →
    (∀ (j : Nat) (itemJ : α), j < i → items[j]? = some itemJ →
        ∃ r, runOne itemJ = Except.ok r) →
    processItemsGo false runOne start items = Except.error (e, start + i) := by
  intro items
  induction items with
  | nil =>
    intro start i item e hget
    simp at hget
  | cons a rest ih =>
    intro start i item e hget herr hprior
    cases i with
    | zero =>
      simp only [List.getElem?_cons_zero, Option.some.injEq] at hget
      subst hget
      simp [processItemsGo, herr]
    | succ i =>
      obtain ⟨r, hr⟩ := hprior 0 a (Nat.succ_pos i) (by simp)
      simp only [List.getElem?_cons_succ] at hget
      have hprior2 : ∀ (j : Nat) (itemJ : α), j < i → rest[j]? = some itemJ →
          ∃ r2, runOne itemJ = Except.ok r2 := by
        intro j itemJ hj hgetJ
        exact hprior (j + 1) itemJ (by omega) (by simpa using hgetJ)
      have hrec := ih (start + 1) i item e hget herr hprior2
      have harith : start + 1 + i = start + (i + 1) := by omega
      rw [harith] at hrec
      simp only [processItemsGo, hr, hrec, Except.map]

/-- C9: requests in a batch are processed sequentially in input order; with the
continue-on-failure policy enabled, a failing item produces an error
placeholder carrying its own item index while later items are still processed;
with the policy disabled, the first failing item aborts the batch and the
propagated error carries that item's index. -/
theorem C9_batch_loop {α E R : Type} (runOne : α → Except E R) (items : List α) :
    processItems true runOne items
      = Except.ok (items.enum.map (fun pr =>
          match runOne pr.2 with
          | Except.ok r => ItemResult.ok r
          | Except.error e => ItemResult.errorRecord e pr.1))
    ∧ (∀ (i : Nat) (item : α) (e : E), items[i]? = some item →
        runOne item = Except.error e →
        (∀ (j : Nat) (itemJ : α), j < i → items[j]? = some itemJ →
            ∃ r, runOne itemJ = Except.ok r) →
        processItems false runOne items = Except.error (e, i)) := by
  constructor
  · exact processItemsGo_continue runOne items 0
  · intro i item e hget herr hprior
    have habort := processItemsGo_abort runOne items 0 i item e hget herr hprior
    simpa [processItems] using habort

theorem C9_batch_loop_witness :
    processItems false (fun n => if n = 1 then Except.error 7 else Except.ok n)
        [0, 1, 2]
      = Except.error (7, 1) :=
  (C9_batch_loop (fun n => if n = 1 then Except.error 7 else Except.ok n)
      [0, 1, 2]).2 1 1 7 rfl rfl (by
    intro j itemJ hj hgetJ
    have hj0 : j = 0 := by omega
    subst hj0
    simp only [List.getElem?_cons_zero, Option.some.injEq] at hgetJ
    subst hgetJ
    exact ⟨0, rfl⟩)

/-! ### Helper lemmas about background color parsing -/

theorem hexPair_parse : ∀ a, a < 16 → ∀ b, b < 16 →
    parseIntHex [toHexDigit a, toHexDigit b] = some (((16 * a + b : Nat)) : Int) := by
  decide

theorem hexByte_not_ws : ∀ n, n < 16 → isJsWs (toHexDigit n) = false := by
  decide

theorem parseIntHex_hexByte (n : Nat) (hn : n < 256) :
    parseIntHex (hexByte n) = some ((n : Nat) : Int) := by
  have h1 : n / 16 < 16 := by omega
  have h2 : n % 16 < 16 := by omega
  have hp := hexPair_parse (n / 16) h1 (n % 16) h2
  have harith : 16 * (n / 16) + n % 16 = n := by omega
  rw [hexByte, hp, harith]

theorem hexByte_mem_not_ws (n : Nat) (hn : n < 256) :
    ∀ c ∈ hexByte n, isJsWs c = false := by
  intro c hc
  simp only [hexByte, List.mem_cons, List.not_mem_nil, or_false] at hc
  rcases hc with rfl | rfl
  · exact hexByte_not_ws (n / 16) (by omega)
  · exact hexByte_not_ws (n % 16) (by omega)

theorem dropWhile_eq_self_of_head {α : Type} (p : α → Bool) (l : List α)
    (h : ∀ c ∈ l, p c = false) : List.dropWhile p l = l := by
  cases l with
  | nil => rfl
  | cons a t =>
    exact List.dropWhile_cons_of_neg (by simp [h a (List.mem_cons_self a t)])

theorem jsTrim_eq_self_of_not_ws (l : List Char)
    (h : ∀ c ∈ l, isJsWs c = false) : jsTrim l = l := by
  unfold jsTrim
  rw [dropWhile_eq_self_of_head isJsWs l h,
    dropWhile_eq_self_of_head isJsWs l.reverse
      (fun c hc => h c (List.mem_reverse.mp hc)),
    List.reverse_reverse]

theorem bg_transparent_eq (l : List Char)
    (h : l = [] ∨ l.map jsToLower = "transparent".data) :
    parseBackgroundColor (some l)
      = { r := some 0, g := some 0, b := some 0, alpha := some 0 } := by
  simp only [parseBackgroundColor]
  rw [if_pos h]

theorem bg_white_eq (l : List Char) (h1 : l ≠ [])
    (h2 : l.map jsToLower ≠ "transparent".data)
    (h3 : (jsTrim (removeFirstHash l)).length ≠ 6)
    (h4 : (jsTrim (removeFirstHash l)).length ≠ 8) :
    parseBackgroundColor (some l)
      = { r := some 255, g := some 255, b := some 255, alpha := some 1 } := by
  simp only [parseBackgroundColor]
  rw [if_neg (by rintro (hc | hc) <;> [exact h1 hc; exact h2 hc]),
    if_neg (by rintro (hc | hc) <;> [exact h3 hc; exact h4 hc])]

theorem bg_hex6_eq (r g b : Nat) (hr : r < 256) (hg : g < 256) (hb : b < 256) :
    parseBackgroundColor (some ('#' :: (hexByte r ++ hexByte g ++ hexByte b)))
      = { r := some ((r : Nat) : Int), g := some ((g : Nat) : Int),
          b := some ((b : Nat) : Int), alpha := some 1 } := by
  have hlen6 : (hexByte r ++ hexByte g ++ hexByte b).length = 6 := by
    simp [hexByte]
  have hnotws : ∀ c ∈ hexByte r ++ hexByte g ++ hexByte b, isJsWs c = false := by
    intro c hc
    simp only [List.mem_append] at hc
    rcases hc with (hc | hc) | hc
    · exact hexByte_mem_not_ws r hr c hc
    · exact hexByte_mem_not_ws g hg c hc
    · exact hexByte_mem_not_ws b hb c hc
  have htrans : ("transparent".data).length = 11 := by decide
  have hcond1 : ¬('#' :: (hexByte r ++ hexByte g ++ hexByte b) = []
      ∨ ('#' :: (hexByte r ++ hexByte g ++ hexByte b)).map jsToLower
          = "transparent".data) := by
    rintro (hc | hc)
    · exact List.cons_ne_nil _ _ hc
    · have hlc := congrArg List.length hc
      rw [List.length_map, htrans, List.length_cons, hlen6] at hlc
      omega
  have hrm : removeFirstHash ('#' :: (hexByte r ++ hexByte g ++ hexByte b))
      = hexByte r ++ hexByte g ++ hexByte b := by
    simp [removeFirstHash]
  have htrim : jsTrim (hexByte r ++ hexByte g ++ hexByte b)
      = hexByte r ++ hexByte g ++ hexByte b := jsTrim_eq_self_of_not_ws _ hnotws
  have hslice1 : (hexByte r ++ hexByte g ++ hexByte b).take 2 = hexByte r := rfl
  have hslice2 : ((hexByte r ++ hexByte g ++ hexByte b).drop 2).take 2 = hexByte g := rfl
  have hslice3 : ((hexByte r ++ hexByte g ++ hexByte b).drop 4).take 2 = hexByte b := rfl
  simp only [parseBackgroundColor]
  rw [if_neg hcond1, hrm, htrim, hlen6]
  rw [if_pos (Or.inl rfl)]
  simp only [BgColor.mk.injEq]
  refine ⟨?_, ?_, ?_, by rw [if_neg (by decide)]⟩
  · rw [hslice1, parseIntHex_hexByte r hr]
  · rw [hslice2, parseIntHex_hexByte g hg]
  · rw [hslice3, parseIntHex_hexByte b hb]

theorem bg_hex8_eq (r g b a : Nat) (hr : r < 256) (hg : g < 256) (hb : b < 256)
    (ha : a < 256) :
    parseBackgroundColor
        (some ('#' :: (hexByte r ++ hexByte g ++ hexByte b ++ hexByte a)))
      = { r := some ((r : Nat) : Int), g := some ((g : Nat) : Int),
          b := some ((b : Nat) : Int), alpha := some ((a : ℚ) / 255) } := by
  have hlen8 : (hexByte r ++ hexByte g ++ hexByte b ++ hexByte a).length = 8 := by
    simp [hexByte]
  have hnotws : ∀ c ∈ hexByte r ++ hexByte g ++ hexByte b ++ hexByte a,
      isJsWs c = false := by
    intro c hc
    simp only [List.mem_append] at hc
    rcases hc with ((hc | hc) | hc) | hc
    · exact hexByte_mem_not_ws r hr c hc
    · exact hexByte_mem_not_ws g hg c hc
    · exact hexByte_mem_not_ws b hb c hc
    · exact hexByte_mem_not_ws a ha c hc
  have htrans : ("transparent".data).length = 11 := by decide
  have hcond1 : ¬('#' :: (hexByte r ++ hexByte g ++ hexByte b ++ hexByte a) = []
      ∨ ('#' :: (hexByte r ++ hexByte g ++ hexByte b ++ hexByte a)).map jsToLower
          = "transparent".data) := by
    rintro (hc | hc)
    · exact List.cons_ne_nil _ _ hc
    · have hlc := congrArg List.length hc
      rw [List.length_map, htrans, List.length_cons, hlen8] at hlc
      omega
  have hrm : removeFirstHash ('#' :: (hexByte r ++ hexByte g ++ hexByte b ++ hexByte a))
      = hexByte r ++ hexByte g ++ hexByte b ++ hexByte a := by
    simp [removeFirstHash]
  have htrim : jsTrim (hexByte r ++ hexByte g ++ hexByte b ++ hexByte a)
      = hexByte r ++ hexByte g ++ hexByte b ++ hexByte a :=
    jsTrim_eq_self_of_not_ws _ hnotws
  have hslice1 : (hexByte r ++ hexByte g ++ hexByte b ++ hexByte a).take 2
      = hexByte r := rfl
  have hslice2 : ((hexByte r ++ hexByte g ++ hexByte b ++ hexByte a).drop 2).take 2
      = hexByte g := rfl
  have hslice3 : ((hexByte r ++ hexByte g ++ hexByte b ++ hexByte a).drop 4).take 2
      = hexByte b := rfl
  have hslice4 : ((hexByte r ++ hexByte g ++ hexByte b ++ hexByte a).drop 6).take 2
      = hexByte a := rfl
  simp only [parseBackgroundColor]
  rw [if_neg hcond1, hrm, htrim, hlen8]
  rw [if_pos (Or.inr rfl)]
  simp only [BgColor.mk.injEq]
  refine ⟨?_, ?_, ?_, ?_⟩
  · rw [hslice1, parseIntHex_hexByte r hr]
  · rw [hslice2, parseIntHex_hexByte g hg]
  · rw [hslice3, parseIntHex_hexByte b hb]
  · rw [if_pos trivial, hslice4, parseIntHex_hexByte a ha]
    simp

/-! ### Claims about background color parsing -/

/-- C6 counterexample: the malformed 6-character input `"#zzzzzz"` does not
fall back to opaque white — `parseInt` yields `NaN` for each channel, modelled
as `none`. -/
theorem C6_counterexample :
    parseBackgroundColor (some ("#zzzzzz".data))
      = { r := none, g := none, b := none, alpha := some 1 }
    ∧ ({ r := none, g := none, b := none, alpha := some 1 } : BgColor)
      ≠ { r := some 255, g := some 255, b := some 255, alpha := some 1 } := by
  constructor
  · decide
  · decide

/-- C6 (amended): an omitted value, an empty string or (case-insensitively)
`transparent` parse to fully transparent; canonical `#RRGGBB` hex parses to the
opaque RGB value and `#RRGGBBAA` to the RGBA value with alpha scaled by 255;
the opaque-white fallback fires exactly when the hex part (after removing the
first `#` and trimming) has a length other than 6 and 8 — a malformed input of
length 6 or 8 is instead fed to `parseInt` per channel, which can produce `NaN`
(see the counterexample). -/
theorem C6_background_color :
    parseBackgroundColor none
        = { r := some 0, g := some 0, b := some 0, alpha := some 0 }
    ∧ (∀ l : List Char, (l = [] ∨ l.map jsToLower = "transparent".data) →
        parseBackgroundColor (some l)
          = { r := some 0, g := some 0, b := some 0, alpha := some 0 })
    ∧ (∀ r g b : Nat, r < 256 → g < 256 → b < 256 →
        parseBackgroundColor (some ('#' :: (hexByte r ++ hexByte g ++ hexByte b)))
          = { r := some ((r : Nat) : Int), g := some ((g : Nat) : Int),
              b := some ((b : Nat) : Int), alpha := some 1 })
    ∧ (∀ r g b a : Nat, r < 256 → g < 256 → b < 256 → a < 256 →
        parseBackgroundColor
            (some ('#' :: (hexByte r ++ hexByte g ++ hexByte b ++ hexByte a)))
          = { r := some ((r : Nat) : Int), g := some ((g : Nat) : Int),
              b := some ((b : Nat) : Int), alpha := some ((a : ℚ) / 255) })
    ∧ (∀ l : List Char, l ≠ [] → l.map jsToLower ≠ "transparent".data →
        (jsTrim (removeFirstHash l)).length ≠ 6 →
        (jsTrim (removeFirstHash l)).length ≠ 8 →
        parseBackgroundColor (some l)
          = { r := some 255, g := some 255, b := some 255, alpha := some 1 }) :=
  ⟨rfl, bg_transparent_eq, bg_hex6_eq, bg_hex8_eq, bg_white_eq⟩

theorem C6_background_color_witness :
    parseBackgroundColor (some ('#' :: (hexByte 17 ++ hexByte 34 ++ hexByte 51)))
      = { r := some ((17 : Nat) : Int), g := some ((34 : Nat) : Int),
          b := some ((51 : Nat) : Int), alpha := some 1 } :=
  (C6_background_color).2.2.1 17 34 51 (by decide) (by decide) (by decide)

theorem C5_no_upscale_witness :
    (∃ d, ([⟨100, 40⟩] : List Dim)[0]? = some d
        ∧ (⟨0, 0, 60, 24⟩ : Placement).width ≤ d.width)
    ∧ (⟨0, 0, 60, 24⟩ : Placement).width
        ≤ (layoutRequest true 60 false Alignment.left 0 [⟨100, 40⟩]).canvasWidth
    ∧ (⟨0, 0, 60, 24⟩ : Placement).left = computeLeft Alignment.left
        (layoutRequest true 60 false Alignment.left 0 [⟨100, 40⟩]).canvasWidth
        (⟨0, 0, 60, 24⟩ : Placement).width :=
  C5_no_upscale true 60 Alignment.left 0 [⟨100, 40⟩] 0 ⟨0, 0, 60, 24⟩ (by decide)

end ImageStitcher
